import Mathlib

set_option maxHeartbeats 1000000

/-!
Shallow embedding of `src/server/server_main.py` (Imaginarium game server).

The embedding models the classes `Player`, `PlayerList`, `GameState` and the
parts of `GameServer` that the verified properties are about:
`begin_game` (deck reduction and dealing), `calculate_result` (scoring),
the `SYNC_NEXT_TURN` branch of `global_operations`, `Player.handle_message`,
`GameServer.accept_connection`, `PlayerList.add_player` and
`PlayerList.check`.

Python lists become Lean `List`s, the random `shuffle` of the deck becomes an
explicit deck parameter (any permutation of `range card_num` may be the
shuffle's outcome), and object identity of `Player` objects inside one roster
list becomes position in the list.  Sockets are abstracted to numeric ids.
-/

/-- One player (class `Player`).  Field-for-field image of the Python object
attributes used by the verified code.  `connStatus` stands for
`self.conn.status`; the `connection` module is not among the sources, so this
flag is modelled from the spec: the framed connection's health flag, true
until an I/O failure (`isHealthy`). -/
structure Player where
  sock : Nat
  number : Nat
  status : String
  state : String
  valid : Bool
  connStatus : Bool
  name : String
  score : Nat
  getBroadcast : Bool
  cards : List Int
  currentCard : Option Int
  selectedCard : Option Int
  buffer : List String
  hasBuffer : Bool
  hasTurn : Bool
deriving DecidableEq

/-- Global server state (class `GameState`): `state` is the session phase,
`card_set` the selected card set. -/
structure GameState where
  state : String
  card_set : String
deriving DecidableEq

/-- `Player.__init__`: the fields a freshly accepted player starts with. -/
def Player.init (sock : Nat) (status : String) (number : Nat) : Player :=
  { sock := sock
    number := number
    status := status
    state := "VER_CHECK"
    valid := true
    connStatus := true
    name := "Player"
    score := 0
    getBroadcast := false
    cards := []
    currentCard := none
    selectedCard := none
    buffer := []
    hasBuffer := false
    hasTurn := false }

/-- `Player.verify`: `self.valid and self.conn.status`. -/
def Player.pverify (p : Player) : Bool :=
  p.valid && p.connStatus

/-- `Player.send_message`: append to the output buffer. -/
def Player.send_message (p : Player) (data : String) : Player :=
  { p with buffer := p.buffer ++ [data], hasBuffer := true }

/-- The container `PlayerList`: ordered roster, the key set of the
socket-to-player dictionary, the master flag and the sequence counter. -/
structure PlayerList where
  players : List Player
  sockets : List Nat
  have_master : Bool
  seq_number : Nat
deriving DecidableEq

/-- `PlayerList.__init__`. -/
def PlayerList.init : PlayerList :=
  { players := [], sockets := [], have_master := false, seq_number := 0 }

/-- `PlayerList.__iter__` yields only valid players. -/
def validPlayers (ps : List Player) : List Player :=
  ps.filter (fun p => p.valid)

/-- `PlayerList.__len__`: the number of valid players. -/
def PlayerList.size (pl : PlayerList) : Nat :=
  (validPlayers pl.players).length

/-- The `PLAYER_LIST` digest materialized by `PlayerList.broadcast` for the
`"#PLAYER_LIST"` template: valid, broadcast-eligible players as
`number;name` joined by commas. -/
def playerListDigest (ps : List Player) : String :=
  "PLAYER_LIST " ++ String.intercalate ","
    (((validPlayers ps).filter (fun p => p.getBroadcast)).map
      (fun p => toString p.number ++ ";" ++ p.name))

/-- `PlayerList.broadcast`: expand the two templates, then enqueue the message
to every valid, broadcast-eligible player.  `info` carries the number of the
`info` player of the `"#SELF"` template. -/
def broadcast (ps : List Player) (data : String) (info : Option Nat) :
    List Player :=
  let msg :=
    if data = "#PLAYER_LIST" then playerListDigest ps
    else if data = "#SELF" then
      "PLAYER " ++ (match info with | some n => toString n | none => "")
    else data
  ps.map (fun p =>
    if p.valid ∧ p.getBroadcast then p.send_message msg else p)

/-- `PlayerList.add_player`: the new player gets status `PLAYER` when a master
already exists, `MASTER` otherwise; it is appended to the roster, its socket
is added to the lookup, and the counters are updated. -/
def PlayerList.add_player (pl : PlayerList) (sock : Nat) : PlayerList :=
  let new_player :=
    Player.init sock (if pl.have_master then "PLAYER" else "MASTER")
      pl.seq_number
  { pl with
    players := pl.players ++ [new_player]
    sockets := pl.sockets ++ [sock]
    have_master := true
    seq_number := pl.seq_number + 1 }

/-- The loop of `PlayerList.check`: find the first player failing `verify`,
return it together with the roster with it removed. -/
def check_find : List Player → Option (Player × List Player)
  | [] => none
  | p :: rest =>
    if p.pverify then
      match check_find rest with
      | none => none
      | some (q, r) => some (q, p :: r)
    else
      some (p, rest)

/-- `PlayerList.check`: remove the first player that fails verification
(flushing and closing it), detach its socket, set the phase to `ERROR` when a
master is removed during `PLAYER_CONN`, and re-broadcast the player list when
still in `PLAYER_CONN`; at most one player is processed per call. -/
def PlayerList.check (pl : PlayerList) (gs : GameState) :
    PlayerList × GameState :=
  match check_find pl.players with
  | none => (pl, gs)
  | some (p, rest) =>
    let gs2 :=
      if p.status = "MASTER" ∧ gs.state = "PLAYER_CONN" then
        { gs with state := "ERROR" }
      else gs
    let pl2 := { pl with players := rest, sockets := pl.sockets.erase p.sock }
    if gs2.state = "PLAYER_CONN" then
      ({ pl2 with players := broadcast pl2.players "#PLAYER_LIST" none }, gs2)
    else
      (pl2, gs2)

/-- `GameServer.accept_connection`: admit the connection (add a player) only
while the phase is `PLAYER_CONN` and fewer than 7 valid players are seated;
otherwise shut the socket down and close it, leaving the roster unchanged.
The boolean records whether the connection was admitted. -/
def accept_connection (gs : GameState) (pl : PlayerList) (sock : Nat) :
    PlayerList × Bool :=
  if gs.state = "PLAYER_CONN" ∧ pl.size < 7 then
    (pl.add_player sock, true)
  else
    (pl, false)

/-- Python list slicing `l[:stop]` for a possibly negative `stop`
(a negative stop counts from the end of the list). -/
def pySliceTo (l : List Int) (stop : Int) : List Int :=
  if stop < 0 then l.take ((l.length + stop).toNat) else l.take stop.toNat

/-- The deck reduction of `GameServer.begin_game`: drop 2 cards for a
4-player roster, 23 for 5 players, 26 for 6 players, and leave any other
roster size unreduced (`n` is the number of valid players at deal time). -/
def reduce_deck (cards : List Int) (n : Nat) : List Int :=
  if n = 4 then pySliceTo cards ((cards.length : Int) - 2)
  else if n = 5 then pySliceTo cards ((cards.length : Int) - 23)
  else if n = 6 then pySliceTo cards ((cards.length : Int) - 26)
  else cards

/-- The dealing loop of `GameServer.begin_game`: each valid player's hand
becomes the first 6 cards of the pool and those cards are consumed. -/
def deal_hands : List Player → List Int → List Player × List Int
  | [], cards => ([], cards)
  | p :: rest, cards =>
    if p.valid then
      let r := deal_hands rest (cards.drop 6)
      ({ p with cards := cards.take 6 } :: r.1, r.2)
    else
      let r := deal_hands rest cards
      (p :: r.1, r.2)

/-- `GameServer.begin_game`, parametrized by the shuffled deck (the random
`shuffle` may produce any permutation of `range card_num`): reduce the deck
according to the number of valid players, then deal 6 cards to each valid
player from the front. -/
def begin_game (deck : List Int) (ps : List Player) : List Player × List Int :=
  deal_hands ps (reduce_deck deck (validPlayers ps).length)

/-- Update the player at position `i` (Python mutates the object held by a
variable; in the list model this is an update at the object's position). -/
def updateAt : List Player → Nat → (Player → Player) → List Player
  | [], _, _ => []
  | p :: rest, 0, f => f p :: rest
  | p :: rest, n + 1, f => p :: updateAt rest n f

/-- Indexed map over the roster, used to render loops of the form
`for player in self.players` whose body depends on whether `player` is the
storyteller object (object identity becomes position equality). -/
def mapWithIndex (f : Nat → Player → Player) : Nat → List Player → List Player
  | _, [] => []
  | i, p :: rest => f i p :: mapWithIndex f (i + 1) rest

/-- The inner loop of `GameServer.calculate_result`: the number of valid
players other than the storyteller (position `st`) whose `selected_card`
equals the card value `c`, counting from position `j`. -/
def countVotes (st : Nat) (c : Option Int) : Nat → List Player → Nat
  | _, [] => 0
  | j, p :: rest =>
    (if p.valid ∧ j ≠ st ∧ p.selectedCard = c then 1 else 0) +
      countVotes st c (j + 1) rest

/-- `result[i]` of `GameServer.calculate_result`: votes of non-storyteller
players that match the card `c`. -/
def fooled (ps : List Player) (st : Nat) (c : Option Int) : Nat :=
  countVotes st c 0 ps

/-- `current_card` of the player at position `i` (`none` when out of range,
mirroring the `None` default). -/
def cardOf (ps : List Player) (i : Nat) : Option Int :=
  match ps.get? i with
  | some p => p.currentCard
  | none => none

/-- `selected_card` of the player at position `i`. -/
def voteOf (ps : List Player) (i : Nat) : Option Int :=
  match ps.get? i with
  | some p => p.selectedCard
  | none => none

/-- `GameServer.calculate_result` (st = position of `self.current_player`):
build `result`, then either award 3 to every non-storyteller (all guessed
correctly) or award the guess bonuses and add `result[i]` to every player. -/
def calculate_result (ps : List Player) (st : Nat) : List Player :=
  let current_card := cardOf ps st
  let n := (validPlayers ps).length
  let correct := fooled ps st current_card
  if (correct : Int) = (n : Int) - 1 then
    mapWithIndex
      (fun j p => if p.valid ∧ j ≠ st then { p with score := p.score + 3 }
                  else p) 0 ps
  else
    let ps1 :=
      if correct ≠ 0 then
        updateAt
          (mapWithIndex
            (fun j p =>
              if p.valid ∧ j ≠ st ∧ p.selectedCard = current_card then
                { p with score := p.score + 3 }
              else p) 0 ps)
          st (fun p => { p with score := p.score + 3 })
      else ps
    mapWithIndex
      (fun _ p =>
        if p.valid then
          { p with score := p.score + fooled ps st p.currentCard }
        else p) 0 ps1

/-- The hand-cleanup loop of the `SYNC_NEXT_TURN` branch: remove the first
occurrence of the played card from the hand (`None` matches no card). -/
def remove_played (p : Player) : Player :=
  match p.currentCard with
  | some c => { p with cards := p.cards.erase c }
  | none => p

/-- The replenishing loop of the `SYNC_NEXT_TURN` branch: each valid player
appends `self.cards.pop(0)`; the branch is guarded by
`len(self.cards) >= len(self.players)`, so the deck never runs dry here. -/
def deal_one : List Player → List Int → List Player × List Int
  | [], deck => ([], deck)
  | p :: rest, deck =>
    if p.valid then
      match deck with
      | [] => (p :: rest, [])
      | c :: deck2 =>
        let r := deal_one rest deck2
        ({ p with cards := p.cards ++ [c] } :: r.1, r.2)
    else
      let r := deal_one rest deck
      (p :: r.1, r.2)

/-- `tuple(self.players)[0]`: the first valid player. -/
def firstValid (ps : List Player) : Option Player :=
  (validPlayers ps).head?

/-- The `CARDS` line sent to a player on turn change. -/
def cardsMessage (cards : List Int) : String :=
  "CARDS " ++ String.intercalate "," (cards.map toString)

/-- The head of the `SYNC_NEXT_TURN` branch of
`GameServer.global_operations`: drop each valid player's played card from
its hand, then replenish one card per valid player when the deck still
holds at least one card per valid player. -/
def next_turn_mid (ps : List Player) (deck : List Int) :
    List Player × List Int :=
  let ps1 := ps.map (fun p => if p.valid then remove_played p else p)
  if (validPlayers ps1).length ≤ deck.length then deal_one ps1 deck
  else (ps1, deck)

/-- The tail of the `SYNC_NEXT_TURN` branch: with the hands refreshed by
`next_turn_mid`, either loop every valid player back to `TURN_SYNC` with a
`CARDS` message (first valid player's hand non-empty) or broadcast
`END_GAME` and invalidate everyone. -/
def sync_next_turn (ps : List Player) (deck : List Int) :
    List Player × List Int :=
  let r2 := next_turn_mid ps deck
  match firstValid r2.1 with
  | none => r2
  | some p0 =>
    if 0 < p0.cards.length then
      (r2.1.map (fun p =>
        if p.valid then
          { p.send_message (cardsMessage p.cards) with state := "TURN_SYNC" }
        else p), r2.2)
    else
      ((broadcast r2.1 "END_GAME" none).map
        (fun p => if p.valid then { p with valid := false } else p), r2.2)

/-- Python `str.isnumeric` restricted to the ASCII wire protocol: non-empty
and all digits. -/
def isnumeric (s : String) : Bool :=
  0 < s.length && s.toList.all Char.isDigit

/-- Python `int(...)` on a string that passed `isnumeric`. -/
def pyInt (s : String) : Int :=
  (s.toNat?).getD 0

/-- `ps` with every valid player's state set, the loop
`for player in self.plist: player.state = ...`. -/
def setAllValidState (ps : List Player) (st : String) : List Player :=
  ps.map (fun p => if p.valid then { p with state := st } else p)

/-- `ps` with the sender at position `s` invalidated. -/
def invalidateAt (ps : List Player) (s : Nat) : List Player :=
  updateAt ps s (fun p => { p with valid := false })

/-- `Player.handle_message` for the sender at position `s`; `tokens` is the
whitespace-split message (`self.conn.get().split()`).  Returns the updated
roster and game state. -/
def handle_message (ps : List Player) (s : Nat) (tokens : List String)
    (gs : GameState) : List Player × GameState :=
  match ps.get? s with
  | none => (ps, gs)
  | some self =>
    if self.state = "VER_WAIT" then
      if tokens.length ≠ 2 ∨ tokens.get? 0 ≠ some "OK" then
        (invalidateAt ps s, gs)
      else
        let ps1 := updateAt ps s (fun p =>
          { p with name := (tokens.get? 1).getD "", getBroadcast := true })
        let ps2 := broadcast ps1 "#PLAYER_LIST" none
        (updateAt ps2 s (fun p => { p with state := "START_WAIT" }), gs)
    else if self.state = "START_WAIT" then
      if self.status ≠ "MASTER" then (invalidateAt ps s, gs)
      else if tokens.length ≠ 2 ∨ tokens.get? 0 ≠ some "START_GAME" then
        (invalidateAt ps s, gs)
      else
        (updateAt ps s (fun p => { p with state := "BEGIN_SYNC" }),
         { gs with state := "GAME", card_set := (tokens.get? 1).getD "" })
    else if self.state = "READY_WAIT" then
      if tokens.length ≠ 1 ∨ tokens.get? 0 ≠ some "READY" then
        (invalidateAt ps s, gs)
      else
        (updateAt ps s (fun p => { p with state := "TURN_SYNC" }), gs)
    else if self.state = "WAIT_ASSOC" then
      if ¬ self.hasTurn then (invalidateAt ps s, gs)
      else if tokens.length < 3 ∨ tokens.get? 0 ≠ some "TURN" ∨
          ¬ isnumeric ((tokens.get? 1).getD "") then
        (setAllValidState (invalidateAt ps s) "TURN_SYNC", gs)
      else
        let ps1 := updateAt ps s (fun p =>
          { p with currentCard := some (pyInt ((tokens.get? 1).getD ""))
                   selectedCard := some (-1) })
        let ps2 := setAllValidState ps1 "WAIT_SELF_CARD"
        (broadcast ps2 ("ASSOC " ++ String.intercalate " " (tokens.drop 2))
          none, gs)
    else if self.state = "WAIT_SELF_CARD" then
      if ¬ self.hasTurn then
        if tokens.length < 2 ∨ tokens.get? 0 ≠ some "CARD" ∨
            ¬ isnumeric ((tokens.get? 1).getD "") then
          (invalidateAt ps s, gs)
        else
          let ps1 := updateAt ps s (fun p =>
            { p with currentCard := some (pyInt ((tokens.get? 1).getD "")) })
          let ps2 := broadcast ps1 "#SELF" (some self.number)
          (updateAt ps2 s (fun p => { p with state := "SELF_SYNC" }), gs)
      else (invalidateAt ps s, gs)
    else if self.state = "WAIT_VOTE" then
      if ¬ self.hasTurn then
        if tokens.length < 2 ∨ tokens.get? 0 ≠ some "CARD" ∨
            ¬ isnumeric ((tokens.get? 1).getD "") then
          (invalidateAt ps s, gs)
        else
          (updateAt ps s (fun p =>
            { p with selectedCard := some (pyInt ((tokens.get? 1).getD ""))
                     state := "VOTE_SYNC" }), gs)
      else (invalidateAt ps s, gs)
    else if self.state = "WAIT_NEXT_TURN" then
      if tokens.length ≠ 1 ∨ tokens.get? 0 ≠ some "NEXT_TURN" then
        (invalidateAt ps s, gs)
      else
        (updateAt ps s (fun p => { p with state := "SYNC_NEXT_TURN" }), gs)
    else
      (invalidateAt ps s, gs)

theorem length_updateAt (l : List Player) (i : Nat) (f : Player → Player) :
    (updateAt l i f).length = l.length := by
  induction l generalizing i with
  | nil => rfl
  | cons p rest ih =>
    cases i with
    | zero => rfl
    | succ n => simp [updateAt, ih]

theorem get?_updateAt (l : List Player) (i : Nat) (f : Player → Player)
    (j : Nat) :
    (updateAt l i f).get? j =
      if j = i then (l.get? j).map f else l.get? j := by
  induction l generalizing i j with
  | nil => simp [updateAt]
  | cons p rest ih =>
    cases i with
    | zero =>
      cases j with
      | zero => simp [updateAt]
      | succ m => simp [updateAt]
    | succ n =>
      cases j with
      | zero => simp [updateAt]
      | succ m => simpa [updateAt, Nat.succ_eq_add_one] using ih n m

theorem length_mapWithIndex (f : Nat → Player → Player) (i : Nat)
    (l : List Player) : (mapWithIndex f i l).length = l.length := by
  induction l generalizing i with
  | nil => rfl
  | cons p rest ih => simp [mapWithIndex, ih]

theorem get?_mapWithIndex (f : Nat → Player → Player) (i : Nat)
    (l : List Player) (j : Nat) :
    (mapWithIndex f i l).get? j = (l.get? j).map (f (i + j)) := by
  induction l generalizing i j with
  | nil => simp [mapWithIndex]
  | cons p rest ih =>
    cases j with
    | zero => simp [mapWithIndex]
    | succ m =>
      have h1 : i + (m + 1) = i + 1 + m := by omega
      simp only [mapWithIndex, List.get?, h1]
      exact ih (i + 1) m

/-- C3, claim as stated: the reduction offsets are 2, 23, 26 for rosters of
4, 5, 6 players and zero otherwise; for a 50-card set the usable deck sizes
are 48, 27, 24 and 50 for 4, 5, 6 and 7 players. -/
theorem reduce_deck_sizes (deck : List Int) :
    (2 ≤ deck.length → (reduce_deck deck 4).length = deck.length - 2) ∧
    (23 ≤ deck.length → (reduce_deck deck 5).length = deck.length - 23) ∧
    (26 ≤ deck.length → (reduce_deck deck 6).length = deck.length - 26) ∧
    (∀ n, n ≠ 4 → n ≠ 5 → n ≠ 6 → reduce_deck deck n = deck) ∧
    (deck.length = 50 →
      (reduce_deck deck 4).length = 48 ∧
      (reduce_deck deck 5).length = 27 ∧
      (reduce_deck deck 6).length = 24 ∧
      (reduce_deck deck 7).length = 50) := by
  have hred : ∀ k : Nat, k ≤ deck.length →
      (pySliceTo deck ((deck.length : Int) - (k : Int))).length =
        deck.length - k := by
    intro k hk
    simp only [pySliceTo]
    rw [if_neg (by omega)]
    rw [List.length_take]
    omega
  refine ⟨?_, ?_, ?_, ?_, ?_⟩
  · intro h
    simpa [reduce_deck] using hred 2 h
  · intro h
    simpa [reduce_deck] using hred 23 h
  · intro h
    simpa [reduce_deck] using hred 26 h
  · intro n h4 h5 h6
    simp [reduce_deck, h4, h5, h6]
  · intro h
    have e4 : reduce_deck deck 4 = pySliceTo deck ((deck.length : Int) - 2) := by
      simp [reduce_deck]
    have e5 : reduce_deck deck 5 = pySliceTo deck ((deck.length : Int) - 23) := by
      simp [reduce_deck]
    have e6 : reduce_deck deck 6 = pySliceTo deck ((deck.length : Int) - 26) := by
      simp [reduce_deck]
    have e7 : reduce_deck deck 7 = deck := by
      simp [reduce_deck]
    have h2 := hred 2 (by omega)
    have h23 := hred 23 (by omega)
    have h26 := hred 26 (by omega)
    push_cast at h2 h23 h26
    rw [e4, e5, e6, e7, h2, h23, h26]
    omega

/-- Witness for `reduce_deck_sizes` at a concrete 50-card deck. -/
theorem reduce_deck_sizes_witness :
    (reduce_deck (List.range 50 |>.map Int.ofNat) 4).length = 48 ∧
    (reduce_deck (List.range 50 |>.map Int.ofNat) 5).length = 27 ∧
    (reduce_deck (List.range 50 |>.map Int.ofNat) 6).length = 24 ∧
    (reduce_deck (List.range 50 |>.map Int.ofNat) 7).length = 50 :=
  (reduce_deck_sizes (List.range 50 |>.map Int.ofNat)).2.2.2.2 (by simp)

/-- C6, claim as stated: a connection during `PLAYER_CONN` with fewer than 7
valid players seated adds a player; any other connection is closed and the
roster is untouched — in particular an 8th connection with 7 players
seated. -/
theorem accept_connection_spec (gs : GameState) (pl : PlayerList)
    (sock : Nat) :
    (gs.state = "PLAYER_CONN" → pl.size < 7 →
      accept_connection gs pl sock = (pl.add_player sock, true)) ∧
    (¬ (gs.state = "PLAYER_CONN" ∧ pl.size < 7) →
      accept_connection gs pl sock = (pl, false)) ∧
    (gs.state = "PLAYER_CONN" → pl.size = 7 →
      accept_connection gs pl sock = (pl, false)) := by
  refine ⟨?_, ?_, ?_⟩
  · intro h1 h2
    simp [accept_connection, h1, h2]
  · intro h
    simp only [accept_connection, if_neg h]
  · intro h1 h2
    simp [accept_connection, h1, h2]

/-- A roster with seven seated (valid, handshaken) players. -/
def sevenSeated : PlayerList :=
  (((((((PlayerList.init.add_player 10).add_player 11).add_player
    12).add_player 13).add_player 14).add_player 15).add_player 16)

/-- Witness for `accept_connection_spec`: an empty roster admits, a
seven-player roster during `PLAYER_CONN` rejects with no roster change. -/
theorem accept_connection_spec_witness :
    accept_connection ⟨"PLAYER_CONN", "0"⟩ PlayerList.init 5 =
      (PlayerList.init.add_player 5, true) ∧
    accept_connection ⟨"PLAYER_CONN", "0"⟩ sevenSeated 17 =
      (sevenSeated, false) :=
  ⟨(accept_connection_spec ⟨"PLAYER_CONN", "0"⟩ PlayerList.init 5).1 rfl
      (by decide),
   (accept_connection_spec ⟨"PLAYER_CONN", "0"⟩ sevenSeated 17).2.2 rfl
      (by decide)⟩

/-- C5, claim as stated: a malformed `TURN` message from the storyteller in
`WAIT_ASSOC` (too few tokens, wrong keyword or non-numeric card id)
invalidates the sender, resets every remaining valid player's state to
`TURN_SYNC`, and leaves the session phase untouched, so the round restarts
instead of the session ending. -/
theorem wait_assoc_malformed (ps : List Player) (s : Nat)
    (tokens : List String) (gs : GameState) (sender : Player)
    (hs : ps.get? s = some sender)
    (hstate : sender.state = "WAIT_ASSOC")
    (hturn : sender.hasTurn = true)
    (hmal : tokens.length < 3 ∨ tokens.get? 0 ≠ some "TURN" ∨
      isnumeric ((tokens.get? 1).getD "") = false) :
    (handle_message ps s tokens gs).2 = gs ∧
    ((handle_message ps s tokens gs).1.get? s).map Player.valid =
      some false ∧
    (∀ j, j ≠ s → ∀ q, ps.get? j = some q → q.valid = true →
      (handle_message ps s tokens gs).1.get? j =
        some { q with state := "TURN_SYNC" }) := by
  have hcond : tokens.length < 3 ∨ tokens.get? 0 ≠ some "TURN" ∨
      ¬ isnumeric ((tokens.get? 1).getD "") = true := by
    rcases hmal with h | h | h
    · exact Or.inl h
    · exact Or.inr (Or.inl h)
    · exact Or.inr (Or.inr (by rw [h]; simp))
  have hres : handle_message ps s tokens gs =
      (setAllValidState (invalidateAt ps s) "TURN_SYNC", gs) := by
    simp only [handle_message, hs]
    rw [if_neg (by rw [hstate]; decide), if_neg (by rw [hstate]; decide),
      if_neg (by rw [hstate]; decide), if_pos hstate,
      if_neg (by rw [hturn]; simp), if_pos hcond]
  rw [hres]
  refine ⟨rfl, ?_, ?_⟩
  · simp only [setAllValidState, List.get?_map, invalidateAt,
      get?_updateAt, if_pos rfl, hs]
    rfl
  · intro j hj q hq hqv
    simp only [setAllValidState, List.get?_map, invalidateAt,
      get?_updateAt, if_neg hj, hq]
    simp [hqv]

/-- The storyteller of the concrete malformed-clue round. -/
def storytellerW : Player :=
  { Player.init 1 "MASTER" 0 with
    state := "WAIT_ASSOC", hasTurn := true, getBroadcast := true }

/-- A second, listening player of the concrete malformed-clue round. -/
def listenerW : Player :=
  { Player.init 2 "PLAYER" 1 with
    state := "WAIT_ASSOC", getBroadcast := true }

/-- Witness for `wait_assoc_malformed`: the one-token message `TURN`. -/
theorem wait_assoc_malformed_witness :
    (handle_message [storytellerW, listenerW] 0 ["TURN"]
      ⟨"GAME", "0"⟩).2 = ⟨"GAME", "0"⟩ ∧
    ((handle_message [storytellerW, listenerW] 0 ["TURN"]
      ⟨"GAME", "0"⟩).1.get? 0).map Player.valid = some false ∧
    (handle_message [storytellerW, listenerW] 0 ["TURN"]
      ⟨"GAME", "0"⟩).1.get? 1 =
        some { listenerW with state := "TURN_SYNC" } := by
  have h := wait_assoc_malformed [storytellerW, listenerW] 0 ["TURN"]
    ⟨"GAME", "0"⟩ storytellerW rfl rfl rfl (Or.inl (by decide))
  exact ⟨h.1, h.2.1, h.2.2 1 (by decide) listenerW rfl rfl⟩

theorem validPlayers_eq_self {ps : List Player}
    (hall : ∀ p ∈ ps, p.valid = true) : validPlayers ps = ps := by
  simp only [validPlayers]
  exact List.filter_eq_self.mpr (fun a ha => hall a ha)

theorem length_calculate_result (ps : List Player) (st : Nat) :
    (calculate_result ps st).length = ps.length := by
  simp only [calculate_result]
  split
  · exact length_mapWithIndex _ _ _
  · rw [length_mapWithIndex]
    split
    · rw [length_updateAt, length_mapWithIndex]
    · rfl

/-- The claim's scoring rule, written from the claim's words: `fooled i` is
the number of non-storyteller votes equal to `i`'s played card and
`correct = fooled st`; if `correct = N - 1` every non-storyteller gains 3
and the storyteller 0 with no fooled bonus; otherwise, when `correct > 0`
the storyteller gains 3 and every non-storyteller whose vote equals the
storyteller's played card gains 3, and in this whole branch every player
additionally gains `fooled i`. -/
def specScoreDelta (ps : List Player) (st i : Nat) : Nat :=
  let trueCard := cardOf ps st
  let correct := fooled ps st trueCard
  let n := ps.length
  if correct = n - 1 then
    if i = st then 0 else 3
  else
    (if 0 < correct then
      (if i ≠ st ∧ voteOf ps i = trueCard then 3 else 0) +
        (if i = st then 3 else 0)
     else 0) + fooled ps st (cardOf ps i)

/-- C1, claim as stated: on a roster of `N ≥ 2` valid players with
storyteller at position `st`, `calculate_result` adds exactly
`specScoreDelta` to every player's score and changes nothing else. -/
theorem calculate_result_spec (ps : List Player) (st : Nat)
    (hall : ∀ p ∈ ps, p.valid = true) (hst : st < ps.length)
    (hn : 2 ≤ ps.length) :
    (calculate_result ps st).length = ps.length ∧
    ∀ i q, ps.get? i = some q →
      (calculate_result ps st).get? i =
        some { q with score := q.score + specScoreDelta ps st i } := by
  have hv : validPlayers ps = ps := validPlayers_eq_self hall
  refine ⟨length_calculate_result ps st, ?_⟩
  intro i q hq
  have hqv : q.valid = true := hall q (List.get?_mem hq)
  have hcard : cardOf ps i = q.currentCard := by simp only [cardOf, hq]
  have hvote : voteOf ps i = q.selectedCard := by simp only [voteOf, hq]
  simp only [calculate_result, hv]
  by_cases hA : (fooled ps st (cardOf ps st) : Int) = (ps.length : Int) - 1
  · rw [if_pos hA]
    have hAnat : fooled ps st (cardOf ps st) = ps.length - 1 := by omega
    rw [get?_mapWithIndex, hq]
    simp only [Option.map_some', Nat.zero_add, specScoreDelta, if_pos hAnat]
    by_cases hi : i = st
    · simp [hi]
    · simp [hqv, hi]
  · rw [if_neg hA]
    have hAnat : ¬ fooled ps st (cardOf ps st) = ps.length - 1 := by omega
    simp only [specScoreDelta, if_neg hAnat]
    by_cases hB : fooled ps st (cardOf ps st) ≠ 0
    · rw [if_pos hB, get?_mapWithIndex, get?_updateAt]
      by_cases hi : i = st
      · subst hi
        rw [if_pos rfl, get?_mapWithIndex, hq]
        simp only [Option.map_some', Nat.zero_add]
        rw [hcard] at hB
        simp [hqv, hcard, Nat.add_assoc, Nat.pos_of_ne_zero hB]
      · rw [if_neg hi, get?_mapWithIndex, hq]
        simp only [Option.map_some', Nat.zero_add]
        by_cases hsel : q.selectedCard = cardOf ps st
        · simp [hqv, hi, hsel, hvote, hcard, Nat.add_assoc,
            Nat.pos_of_ne_zero hB]
        · simp [hqv, hi, hsel, hvote, hcard, Nat.pos_of_ne_zero hB]
    · rw [if_neg hB, get?_mapWithIndex, hq]
      simp only [Option.map_some', Nat.zero_add]
      have hB0 : fooled ps st (cardOf ps st) = 0 := by omega
      simp [hqv, hB0, hcard]

/-- A concrete 4-player `VOTE_SYNC` roster: the storyteller played card 10,
one player guessed it, the other two voted for player 1's decoy. -/
def scoringRoster : List Player :=
  [ { Player.init 1 "MASTER" 0 with
      currentCard := some 10, selectedCard := some (-1), hasTurn := true },
    { Player.init 2 "PLAYER" 1 with
      currentCard := some 20, selectedCard := some 10 },
    { Player.init 3 "PLAYER" 2 with
      currentCard := some 30, selectedCard := some 20 },
    { Player.init 4 "PLAYER" 3 with
      currentCard := some 40, selectedCard := some 20 } ]

/-- Witness for `calculate_result_spec`: storyteller gains 3 + 1, the correct
guesser 3 + 2, the decoy-only voters nothing. -/
theorem calculate_result_spec_witness :
    ((calculate_result scoringRoster 0).get? 0).map Player.score = some 4 ∧
    ((calculate_result scoringRoster 0).get? 1).map Player.score = some 5 ∧
    ((calculate_result scoringRoster 0).get? 2).map Player.score = some 0 ∧
    ((calculate_result scoringRoster 0).get? 3).map Player.score = some 0 := by
  have h := calculate_result_spec scoringRoster 0 (by decide) (by decide)
    (by decide)
  refine ⟨?_, ?_, ?_, ?_⟩
  · rw [h.2 0 _ rfl]; decide
  · rw [h.2 1 _ rfl]; decide
  · rw [h.2 2 _ rfl]; decide
  · rw [h.2 3 _ rfl]; decide

theorem deal_hands_eq (ps : List Player) (cards : List Int)
    (hall : ∀ p ∈ ps, p.valid = true) :
    (∀ i q, ps.get? i = some q →
      (deal_hands ps cards).1.get? i =
        some { q with cards := (cards.drop (6 * i)).take 6 }) ∧
    (deal_hands ps cards).2 = cards.drop (6 * ps.length) := by
  induction ps generalizing cards with
  | nil =>
    refine ⟨?_, by simp [deal_hands]⟩
    intro i q hq
    simp at hq
  | cons p rest ih =>
    have hpv : p.valid = true := hall p (by simp)
    have hrest : ∀ r ∈ rest, r.valid = true :=
      fun r hr => hall r (by simp [hr])
    refine ⟨?_, ?_⟩
    · intro i q hq
      cases i with
      | zero =>
        have hqp : q = p := by simpa using hq.symm
        subst hqp
        simp [deal_hands, hpv]
      | succ n =>
        have hq2 : rest.get? n = some q := by simpa using hq
        have h1 := (ih (cards.drop 6) hrest).1 n q hq2
        simp only [deal_hands, hpv, if_pos]
        have hstep : ((cards.drop 6).drop (6 * n)).take 6 =
            (cards.drop (6 * (n + 1))).take 6 := by
          rw [List.drop_drop, show 6 + 6 * n = 6 * (n + 1) from by omega]
        simp only [List.get?, h1, hstep]
    · have h2 := (ih (cards.drop 6) hrest).2
      simp only [deal_hands, hpv, if_pos, h2, List.drop_drop,
        List.length_cons]
      rw [show 6 + 6 * rest.length = 6 * (rest.length + 1) from by omega]


theorem deal_hands_length (ps : List Player) (cards : List Int) :
    (deal_hands ps cards).1.length = ps.length := by
  induction ps generalizing cards with
  | nil => rfl
  | cons p rest ih =>
    cases hp : p.valid with
    | true => simp [deal_hands, hp, ih]
    | false => simp [deal_hands, hp, ih]

theorem chunk_disjoint {l : List Int} (hnd : l.Nodup) {i j : Nat}
    (hij : i < j) (c : Int) (hci : c ∈ (l.drop (6 * i)).take 6) :
    c ∉ (l.drop (6 * j)).take 6 := by
  intro hcj
  have hndi : (l.drop (6 * i)).Nodup :=
    (List.drop_sublist (6 * i) l).nodup hnd
  have hdisj : (List.take 6 (l.drop (6 * i))).Disjoint
      (List.drop 6 (l.drop (6 * i))) := by
    apply List.disjoint_of_nodup_append
    rw [List.take_append_drop]
    exact hndi
  apply hdisj hci
  have h1 : c ∈ l.drop (6 * j) := List.take_subset _ _ hcj
  have h2 : l.drop (6 * j) =
      (l.drop (6 * i + 6)).drop (6 * j - (6 * i + 6)) := by
    rw [List.drop_drop]
    congr 1
    omega
  rw [h2] at h1
  have h3 : c ∈ l.drop (6 * i + 6) := List.drop_subset _ _ h1
  rw [List.drop_drop]
  exact h3

/-- Amended C2: when the reduced deck still holds `6 · N` cards (true for 4
or 7 players with a 50-card set, false for 5 or 6 players), every valid
player receives exactly the next 6 cards from the front of the shuffled
deck, no card id occurs in two different hands (the deck, being a shuffle of
distinct ids, has no duplicates), and the dealt cards are consumed from the
pool. -/
theorem begin_game_deals (deck : List Int) (ps : List Player)
    (hall : ∀ p ∈ ps, p.valid = true)
    (hnd : (reduce_deck deck ps.length).Nodup)
    (hlen : 6 * ps.length ≤ (reduce_deck deck ps.length).length) :
    (∀ i q, ps.get? i = some q →
      (begin_game deck ps).1.get? i =
        some { q with
          cards := ((reduce_deck deck ps.length).drop (6 * i)).take 6 }) ∧
    (∀ i pi, (begin_game deck ps).1.get? i = some pi →
      pi.cards.length = 6) ∧
    (∀ i j pi pj, i ≠ j →
      (begin_game deck ps).1.get? i = some pi →
      (begin_game deck ps).1.get? j = some pj →
      ∀ c, c ∈ pi.cards → c ∉ pj.cards) ∧
    (begin_game deck ps).2 =
      (reduce_deck deck ps.length).drop (6 * ps.length) := by
  have hv : validPlayers ps = ps := validPlayers_eq_self hall
  have hbg : begin_game deck ps =
      deal_hands ps (reduce_deck deck ps.length) := by
    simp only [begin_game, hv]
  obtain ⟨hget, hsnd⟩ := deal_hands_eq ps (reduce_deck deck ps.length) hall
  have hshape : ∀ i pi,
      (deal_hands ps (reduce_deck deck ps.length)).1.get? i = some pi →
      i < ps.length ∧
        pi.cards = ((reduce_deck deck ps.length).drop (6 * i)).take 6 := by
    intro i pi hpi
    have hi : i < ps.length := by
      by_contra hcon
      rw [List.get?_eq_none.2 (by rw [deal_hands_length]; omega)] at hpi
      exact Option.noConfusion hpi
    have h1 := hget i _ (List.get?_eq_get hi)
    rw [h1] at hpi
    have h2 := Option.some.inj hpi
    exact ⟨hi, by rw [← h2]⟩
  rw [hbg]
  refine ⟨hget, ?_, ?_, hsnd⟩
  · intro i pi hpi
    obtain ⟨hi, hcards⟩ := hshape i pi hpi
    rw [hcards, List.length_take, List.length_drop]
    omega
  · intro i j pi pj hij hpi hpj c hci hcj
    obtain ⟨hi, hci2⟩ := hshape i pi hpi
    obtain ⟨hj, hcj2⟩ := hshape j pj hpj
    rw [hci2] at hci
    rw [hcj2] at hcj
    rcases Nat.lt_or_ge i j with h | h
    · exact chunk_disjoint hnd h c hci hcj
    · exact chunk_disjoint hnd (by omega : j < i) c hcj hci

/-- A 50-card deck as left by the identity permutation of `shuffle`. -/
def deck50 : List Int := (List.range 50).map Int.ofNat

/-- Five freshly seated valid players. -/
def fiveRoster : List Player :=
  [Player.init 1 "MASTER" 0, Player.init 2 "PLAYER" 1,
   Player.init 3 "PLAYER" 2, Player.init 4 "PLAYER" 3,
   Player.init 5 "PLAYER" 4]

/-- C2 counterexample: with 5 valid players and a 50-card set the reduced
deck holds 27 cards, so the fifth player's hand has only 3 cards, not 6 —
the claim's "every valid player receives exactly 6 cards" fails at this
roster size and card count. -/
theorem begin_game_five_players_short_hand :
    ((begin_game deck50 fiveRoster).1.get? 4).map
      (fun p => p.cards.length) = some 3 := by decide

/-- Four freshly seated valid players. -/
def fourRoster : List Player :=
  [Player.init 1 "MASTER" 0, Player.init 2 "PLAYER" 1,
   Player.init 3 "PLAYER" 2, Player.init 4 "PLAYER" 3]

/-- Witness for `begin_game_deals`: 4 players with a 50-card set. -/
theorem begin_game_deals_witness :
    ((begin_game deck50 fourRoster).1.get? 3) =
      some { Player.init 4 "PLAYER" 3 with
        cards := ((reduce_deck deck50 4).drop (6 * 3)).take 6 } :=
  (begin_game_deals deck50 fourRoster (by decide) (by decide)
    (by decide)).1 3 (Player.init 4 "PLAYER" 3) rfl

theorem deal_one_eq (ps : List Player) (deck : List Int)
    (hall : ∀ p ∈ ps, p.valid = true) (hlen : ps.length ≤ deck.length) :
    (∀ i q, ps.get? i = some q →
      (deal_one ps deck).1.get? i =
        some { q with cards := q.cards ++ (deck.drop i).take 1 }) ∧
    (deal_one ps deck).2 = deck.drop ps.length := by
  induction ps generalizing deck with
  | nil =>
    refine ⟨?_, by simp [deal_one]⟩
    intro i q hq
    simp at hq
  | cons p rest ih =>
    have hpv : p.valid = true := hall p (by simp)
    cases deck with
    | nil => simp at hlen
    | cons c deck2 =>
      have hrest : ∀ r ∈ rest, r.valid = true :=
        fun r hr => hall r (by simp [hr])
      have hlen2 : rest.length ≤ deck2.length := by simpa using hlen
      obtain ⟨ih1, ih2⟩ := ih deck2 hrest hlen2
      refine ⟨?_, ?_⟩
      · intro i q hq
        cases i with
        | zero =>
          have hqp : q = p := by simpa using hq.symm
          subst hqp
          simp [deal_one, hpv]
        | succ n =>
          have hq2 : rest.get? n = some q := by simpa using hq
          simp only [deal_one, hpv, if_pos, List.get?]
          rw [ih1 n q hq2]
          simp
      · simp [deal_one, hpv, ih2]

theorem remove_played_fields (p : Player) :
    remove_played p = { p with cards := (remove_played p).cards } := by
  obtain ⟨sk, nm, st, sta, vl, cs, na, sc, gb, cd, cc, sel, bf, hb, ht⟩ := p
  cases cc <;> simp [remove_played]

theorem next_turn_mid_eq (ps : List Player) (deck : List Int)
    (hall : ∀ p ∈ ps, p.valid = true) :
    (∀ i q, ps.get? i = some q →
      (next_turn_mid ps deck).1.get? i =
        some { q with cards := (remove_played q).cards ++
          (if ps.length ≤ deck.length then (deck.drop i).take 1 else []) }) ∧
    (next_turn_mid ps deck).2 =
      (if ps.length ≤ deck.length then deck.drop ps.length else deck) := by
  have hvalid_rem : ∀ p : Player, (remove_played p).valid = p.valid := by
    intro p
    cases hc : p.currentCard <;> simp [remove_played, hc]
  have hps1 : ∀ i q, ps.get? i = some q →
      (ps.map (fun p => if p.valid then remove_played p else p)).get? i =
        some (remove_played q) := by
    intro i q hq
    rw [List.get?_map, hq]
    simp [hall q (List.get?_mem hq)]
  have hall1 : ∀ r ∈ ps.map (fun p => if p.valid then remove_played p else p),
      r.valid = true := by
    intro r hr
    obtain ⟨p, hp, rfl⟩ := List.mem_map.1 hr
    simp [hall p hp, hvalid_rem]
  have hv1 : validPlayers
      (ps.map (fun p => if p.valid then remove_played p else p)) =
      ps.map (fun p => if p.valid then remove_played p else p) :=
    validPlayers_eq_self hall1
  have hlen1 : (ps.map (fun p => if p.valid then remove_played p else p)).length
      = ps.length := List.length_map _ _
  by_cases hd : ps.length ≤ deck.length
  · have hmid : next_turn_mid ps deck =
        deal_one (ps.map (fun p => if p.valid then remove_played p else p))
          deck := by
      simp only [next_turn_mid, hv1, hlen1, if_pos hd]
    obtain ⟨d1, d2⟩ := deal_one_eq
      (ps.map (fun p => if p.valid then remove_played p else p)) deck hall1
      (by rw [hlen1]; exact hd)
    rw [hmid]
    refine ⟨?_, by rw [d2, hlen1, if_pos hd]⟩
    intro i q hq
    rw [d1 i (remove_played q) (hps1 i q hq), if_pos hd]
    rw [remove_played_fields q]
  · have hmid : next_turn_mid ps deck =
        (ps.map (fun p => if p.valid then remove_played p else p), deck) := by
      simp only [next_turn_mid, hv1, hlen1, if_neg hd]
    rw [hmid]
    refine ⟨?_, by rw [if_neg hd]⟩
    intro i q hq
    rw [hps1 i q hq, if_neg hd]
    rw [remove_played_fields q]
    simp

theorem deal_one_length (ps : List Player) (deck : List Int) :
    (deal_one ps deck).1.length = ps.length := by
  induction ps generalizing deck with
  | nil => rfl
  | cons p rest ih =>
    cases hp : p.valid with
    | true =>
      cases deck with
      | nil => simp [deal_one, hp]
      | cons c deck2 => simp [deal_one, hp, ih]
    | false => simp [deal_one, hp, ih]

theorem firstValid_eq_head (ps : List Player)
    (hall : ∀ p ∈ ps, p.valid = true) : firstValid ps = ps.get? 0 := by
  rw [firstValid, validPlayers_eq_self hall]
  cases ps <;> rfl

/-- The hand a valid player ends the turn with: played card removed, one
card appended when the deck could serve every valid player (`n` is the
roster size, `i` the player's position). -/
def refreshedHand (deck : List Int) (n i : Nat) (q : Player) : List Int :=
  (remove_played q).cards ++
    (if n ≤ deck.length then (deck.drop i).take 1 else [])

/-- Amended C4: on the `SYNC_NEXT_TURN` barrier each player's played card is
removed from its hand and one new card is dealt to every valid player iff
the deck holds at least one card per valid player; `END_GAME` is broadcast
and every player invalidated iff the FIRST valid player's refreshed hand is
empty (the code inspects only `tuple(self.players)[0]`); otherwise every
player receives its refreshed hand in a `CARDS` message and moves to
`TURN_SYNC`. -/
theorem sync_next_turn_spec (ps : List Player) (deck : List Int)
    (hall : ∀ p ∈ ps, p.valid = true)
    (q0 : Player) (h0 : ps.get? 0 = some q0) :
    ((sync_next_turn ps deck).2 =
      if ps.length ≤ deck.length then deck.drop ps.length else deck) ∧
    (refreshedHand deck ps.length 0 q0 ≠ [] →
      ∀ i q, ps.get? i = some q →
        (sync_next_turn ps deck).1.get? i =
          some { q with
            state := "TURN_SYNC"
            cards := refreshedHand deck ps.length i q
            buffer := q.buffer ++
              [cardsMessage (refreshedHand deck ps.length i q)]
            hasBuffer := true }) ∧
    (refreshedHand deck ps.length 0 q0 = [] →
      ∀ i q, ps.get? i = some q →
        (sync_next_turn ps deck).1.get? i =
          some { q with
            valid := false
            cards := refreshedHand deck ps.length i q
            buffer := q.buffer ++
              (if q.getBroadcast then ["END_GAME"] else [])
            hasBuffer := if q.getBroadcast then true else q.hasBuffer }) := by
  obtain ⟨hmid, hmiddeck⟩ := next_turn_mid_eq ps deck hall
  have hmlen : (next_turn_mid ps deck).1.length = ps.length := by
    simp only [next_turn_mid]
    split
    · rw [deal_one_length, List.length_map]
    · rw [List.length_map]
  have hallmid : ∀ r ∈ (next_turn_mid ps deck).1, r.valid = true := by
    intro r hr
    obtain ⟨i, hi⟩ := List.mem_iff_get?.1 hr
    have hilt : i < ps.length := by
      by_contra hcon
      rw [List.get?_eq_none.2 (by omega)] at hi
      exact Option.noConfusion hi
    rw [hmid i _ (List.get?_eq_get hilt)] at hi
    have h2 := Option.some.inj hi
    rw [← h2]
    have hqv := hall _ (List.get_mem ps i hilt)
    exact hqv
  have h00 : (next_turn_mid ps deck).1.get? 0 =
      some { q0 with cards := refreshedHand deck ps.length 0 q0 } :=
    hmid 0 q0 h0
  have hfv : firstValid (next_turn_mid ps deck).1 =
      some { q0 with cards := refreshedHand deck ps.length 0 q0 } := by
    rw [firstValid_eq_head _ hallmid, h00]
  refine ⟨?_, ?_, ?_⟩
  · simp only [sync_next_turn, hfv]
    split
    · exact hmiddeck
    · exact hmiddeck
  · intro hne i q hq
    have hlen : 0 < (refreshedHand deck ps.length 0 q0).length :=
      List.length_pos.2 hne
    simp only [sync_next_turn, hfv]
    rw [if_pos hlen]
    rw [List.get?_map, hmid i q hq]
    have hqv : q.valid = true := hall q (List.get?_mem hq)
    simp [Player.send_message, hqv, refreshedHand]
  · intro hemp i q hq
    have hlen : ¬ 0 < (refreshedHand deck ps.length 0 q0).length := by
      rw [hemp]
      simp
    simp only [sync_next_turn, hfv]
    rw [if_neg hlen]
    simp only [broadcast]
    rw [List.get?_map, List.get?_map, hmid i q hq]
    have hqv : q.valid = true := hall q (List.get?_mem hq)
    by_cases hgb : q.getBroadcast = true
    · simp [Player.send_message, hqv, hgb, refreshedHand]
    · have hgb2 : q.getBroadcast = false := by
        cases hg : q.getBroadcast
        · rfl
        · exact absurd hg hgb
      simp [Player.send_message, hqv, hgb2, refreshedHand]

/-- First player of the concrete `SYNC_NEXT_TURN` roster: one card left. -/
def master1 : Player :=
  { Player.init 1 "MASTER" 0 with
    state := "SYNC_NEXT_TURN", cards := [5], getBroadcast := true }

/-- Second player of the concrete `SYNC_NEXT_TURN` roster: empty hand. -/
def listener2 : Player :=
  { Player.init 2 "PLAYER" 1 with
    state := "SYNC_NEXT_TURN", cards := [], getBroadcast := true }

/-- A two-player roster at the `SYNC_NEXT_TURN` barrier whose second valid
player has an empty hand while the first does not. -/
def nextTurnRoster : List Player := [master1, listener2]

/-- C4 counterexample: the second valid player's hand is empty, yet the
round loops to `TURN_SYNC` with the player still valid and no `END_GAME` —
the code inspects only the first valid player's hand, so "END_GAME iff some
valid player's hand is empty" fails. -/
theorem sync_next_turn_second_empty_hand :
    ((sync_next_turn nextTurnRoster []).1.get? 1).map
      (fun p => (p.valid, p.state, p.cards)) =
      some (true, "TURN_SYNC", ([] : List Int)) := by decide

/-- Witness for `sync_next_turn_spec` on the same concrete roster. -/
theorem sync_next_turn_spec_witness :
    (sync_next_turn nextTurnRoster []).1.get? 1 =
      some { listener2 with
        state := "TURN_SYNC"
        cards := refreshedHand [] nextTurnRoster.length 1 listener2
        buffer := listener2.buffer ++
          [cardsMessage (refreshedHand [] nextTurnRoster.length 1 listener2)]
        hasBuffer := true } :=
  (sync_next_turn_spec nextTurnRoster [] (by decide) master1 rfl).2.1
    (by decide) 1 listener2 rfl

theorem check_find_split (a : List Player) (p : Player) (b : List Player)
    (ha : ∀ q ∈ a, q.pverify = true) (hp : p.pverify = false) :
    check_find (a ++ p :: b) = some (p, a ++ b) := by
  induction a with
  | nil => simp [check_find, hp]
  | cons x rest ih =>
    have hx : x.pverify = true := ha x (by simp)
    have ih2 := ih (fun q hq => ha q (by simp [hq]))
    simp [check_find, hx, ih2]

theorem check_find_none (ps : List Player)
    (hall : ∀ q ∈ ps, q.pverify = true) : check_find ps = none := by
  induction ps with
  | nil => rfl
  | cons x rest ih =>
    have hx : x.pverify = true := hall x (by simp)
    have ih2 := ih (fun q hq => hall q (by simp [hq]))
    simp [check_find, hx, ih2]

theorem check_no_invalid (pl : PlayerList) (gs : GameState)
    (hall : ∀ q ∈ pl.players, q.pverify = true) :
    PlayerList.check pl gs = (pl, gs) := by
  simp only [PlayerList.check, check_find_none pl.players hall]

theorem broadcast_field_eq {α : Type} (ps : List Player) (d : String)
    (i : Option Nat) (g : Player → α)
    (hg : ∀ p msg, g (p.send_message msg) = g p) :
    (broadcast ps d i).map g = ps.map g := by
  simp only [broadcast, List.map_map]
  apply List.map_congr_left
  intro x hx
  by_cases h : x.valid ∧ x.getBroadcast
  · simp only [Function.comp, if_pos h, hg]
  · simp only [Function.comp, if_neg h]

theorem broadcast_all_pverify (ps : List Player) (d : String)
    (i : Option Nat) (hall : ∀ q ∈ ps, q.pverify = true) :
    ∀ q ∈ broadcast ps d i, q.pverify = true := by
  intro q hq
  simp only [broadcast, List.mem_map] at hq
  obtain ⟨x, hx, rfl⟩ := hq
  by_cases h : x.valid ∧ x.getBroadcast
  · rw [if_pos h]
    exact hall x hx
  · rw [if_neg h]
    exact hall x hx

/-- C10, claim as stated: one sweep processes only the first player in join
order that fails verification — the roster keeps every other player,
including later invalid ones, and only the removed player's socket is
detached. -/
theorem check_single_removal (pl : PlayerList) (gs : GameState)
    (a : List Player) (p : Player) (b : List Player)
    (hsplit : pl.players = a ++ p :: b)
    (ha : ∀ q ∈ a, q.pverify = true) (hp : p.pverify = false) :
    ((PlayerList.check pl gs).1.players.map (fun r => r.number) =
      (a ++ b).map (fun r => r.number)) ∧
    ((PlayerList.check pl gs).1.sockets = pl.sockets.erase p.sock) ∧
    ((PlayerList.check pl gs).1.players.length + 1 = pl.players.length) := by
  have hc := check_find_split a p b ha hp
  have hnum : ∀ (q : Player) (msg : String),
      (q.send_message msg).number = q.number := fun q msg => rfl
  simp only [PlayerList.check, hsplit, hc]
  by_cases h1 : p.status = "MASTER" ∧ gs.state = "PLAYER_CONN"
  · have hB : ¬ (GameState.state { gs with state := "ERROR" } =
        "PLAYER_CONN") := by simp
    rw [if_pos h1, if_neg hB]
    refine ⟨rfl, rfl, ?_⟩
    simp only [List.length_append, List.length_cons]
    omega
  · rw [if_neg h1]
    by_cases h2 : gs.state = "PLAYER_CONN"
    · rw [if_pos h2]
      refine ⟨?_, rfl, ?_⟩
      · exact broadcast_field_eq (a ++ b) "#PLAYER_LIST" none
          (fun r => r.number) hnum
      · simp only [broadcast, List.length_map, List.length_append,
          List.length_cons]
        omega
    · rw [if_neg h2]
      refine ⟨rfl, rfl, ?_⟩
      simp only [List.length_append, List.length_cons]
      omega

/-- Dead-roster fixture: one healthy master, two dead players behind it. -/
def goodC : Player := Player.init 3 "MASTER" 0

/-- First dead player of the sweep fixture. -/
def deadC : Player := { Player.init 4 "PLAYER" 1 with valid := false }

/-- Second dead player of the sweep fixture. -/
def deadD : Player := { Player.init 5 "PLAYER" 2 with valid := false }

/-- The sweep fixture roster: `goodC`, then the two dead players. -/
def sweepList : PlayerList :=
  { players := [goodC, deadC, deadD], sockets := [3, 4, 5],
    have_master := true, seq_number := 3 }

/-- Witness for `check_single_removal`: only the first dead player goes;
the second dead player is still in the roster. -/
theorem check_single_removal_witness :
    ((PlayerList.check sweepList ⟨"GAME", "0"⟩).1.players.map
      (fun r => r.number) = [0, 2]) ∧
    (PlayerList.check sweepList ⟨"GAME", "0"⟩).1.sockets = [3, 5] := by
  have h := check_single_removal sweepList ⟨"GAME", "0"⟩ [goodC] deadC
    [deadD] rfl (by decide) (by decide)
  refine ⟨by rw [h.1]; decide, by rw [h.2.1]; decide⟩

/-- C9, claim as stated: removing a master during `PLAYER_CONN` forces the
phase to `ERROR`; removing a master in any other phase leaves the game
state untouched. -/
theorem check_master_error (pl : PlayerList) (gs : GameState)
    (a : List Player) (p : Player) (b : List Player)
    (hsplit : pl.players = a ++ p :: b)
    (ha : ∀ q ∈ a, q.pverify = true) (hp : p.pverify = false)
    (hm : p.status = "MASTER") :
    (gs.state = "PLAYER_CONN" →
      (PlayerList.check pl gs).2 = { gs with state := "ERROR" }) ∧
    (gs.state ≠ "PLAYER_CONN" → (PlayerList.check pl gs).2 = gs) := by
  have hc := check_find_split a p b ha hp
  simp only [PlayerList.check, hsplit, hc]
  constructor
  · intro h2
    have hB : ¬ (GameState.state { gs with state := "ERROR" } =
        "PLAYER_CONN") := by simp
    rw [if_pos (And.intro hm h2), if_neg hB]
  · intro h2
    have hA : ¬ (p.status = "MASTER" ∧ gs.state = "PLAYER_CONN") :=
      fun hcon => h2 hcon.2
    rw [if_neg hA, if_neg h2]

/-- A dead master followed by a healthy player. -/
def deadMaster : Player := { Player.init 6 "MASTER" 0 with valid := false }

/-- The healthy player behind the dead master. -/
def aliveP : Player := Player.init 7 "PLAYER" 1

/-- Roster whose master is dead. -/
def masterDeadList : PlayerList :=
  { players := [deadMaster, aliveP], sockets := [6, 7],
    have_master := true, seq_number := 2 }

/-- Witness for `check_master_error` in both phases. -/
theorem check_master_error_witness :
    (PlayerList.check masterDeadList ⟨"PLAYER_CONN", "0"⟩).2 =
      ⟨"ERROR", "0"⟩ ∧
    (PlayerList.check masterDeadList ⟨"GAME", "0"⟩).2 = ⟨"GAME", "0"⟩ := by
  have h1 := check_master_error masterDeadList ⟨"PLAYER_CONN", "0"⟩ []
    deadMaster [aliveP] rfl (by decide) (by decide) rfl
  have h2 := check_master_error masterDeadList ⟨"GAME", "0"⟩ []
    deadMaster [aliveP] rfl (by decide) (by decide) rfl
  exact ⟨h1.1 rfl, h2.2 (by decide)⟩

theorem exists_first_fail (ps : List Player)
    (h : ¬ ∀ q ∈ ps, q.pverify = true) :
    ∃ a p b, ps = a ++ p :: b ∧ (∀ q ∈ a, q.pverify = true) ∧
      p.pverify = false := by
  induction ps with
  | nil => exact absurd (by intro q hq; cases hq) h
  | cons x rest ih =>
    cases hx : x.pverify with
    | false =>
      exact ⟨[], x, rest, rfl, (fun q hq => absurd hq (List.not_mem_nil q)), hx⟩
    | true =>
      have h2 : ¬ ∀ q ∈ rest, q.pverify = true := by
        intro hall2
        apply h
        intro q hq
        rcases List.mem_cons.1 hq with rfl | hq2
        · exact hx
        · exact hall2 q hq2
      obtain ⟨a, p, b, hsp, ha, hp⟩ := ih h2
      refine ⟨x :: a, p, b, by rw [hsp]; rfl, ?_, hp⟩
      intro q hq
      rcases List.mem_cons.1 hq with rfl | hq2
      · exact hx
      · exact ha q hq2

/-- Amended C8: with at most one player failing verification in the roster,
a second sweep right after the first changes nothing; a second already-dead
player, however, is removed by the second sweep (see the counterexample). -/
theorem check_twice_single_invalid (pl : PlayerList) (gs : GameState)
    (h1 : pl.players.countP (fun r => !r.pverify) ≤ 1) :
    PlayerList.check (PlayerList.check pl gs).1 (PlayerList.check pl gs).2 =
      PlayerList.check pl gs := by
  by_cases hall : ∀ q ∈ pl.players, q.pverify = true
  · rw [check_no_invalid pl gs hall]
    exact check_no_invalid pl gs hall
  · obtain ⟨a, p, b, hsplit, ha, hp⟩ := exists_first_fail pl.players hall
    have hcount : (a ++ p :: b).countP (fun r => !r.pverify) ≤ 1 := by
      rw [← hsplit]
      exact h1
    have hpb : b.countP (fun r => !r.pverify) = 0 := by
      rw [List.countP_append, List.countP_cons] at hcount
      simp [hp] at hcount
      omega
    have hb : ∀ q ∈ b, q.pverify = true := by
      intro q hq
      have h0 := List.countP_eq_zero.1 hpb q hq
      simpa using h0
    have hab : ∀ q ∈ a ++ b, q.pverify = true := by
      intro q hq
      rcases List.mem_append.1 hq with hqa | hqb
      · exact ha q hqa
      · exact hb q hqb
    have hres : ∀ q ∈ (PlayerList.check pl gs).1.players,
        q.pverify = true := by
      have hc := check_find_split a p b ha hp
      simp only [PlayerList.check, hsplit, hc]
      split_ifs with hA hB hC
      · exact broadcast_all_pverify (a ++ b) "#PLAYER_LIST" none hab
      · exact hab
      · exact broadcast_all_pverify (a ++ b) "#PLAYER_LIST" none hab
      · exact hab
    exact check_no_invalid _ _ hres

/-- First dead player of the double-dead fixture. -/
def deadE : Player := { Player.init 8 "PLAYER" 0 with valid := false }

/-- Second dead player of the double-dead fixture. -/
def deadF : Player := { Player.init 9 "PLAYER" 1 with valid := false }

/-- A roster in which both players are already invalid. -/
def twoDeadList : PlayerList :=
  { players := [deadE, deadF], sockets := [8, 9],
    have_master := true, seq_number := 2 }

/-- C8 counterexample: with two players already invalid, the first sweep
removes one and the second sweep removes the other, so running the sweep
twice does not leave the same roster as running it once. -/
theorem check_twice_differs :
    (PlayerList.check (PlayerList.check twoDeadList ⟨"GAME", "0"⟩).1
      (PlayerList.check twoDeadList ⟨"GAME", "0"⟩).2).1.players.length = 0 ∧
    (PlayerList.check twoDeadList ⟨"GAME", "0"⟩).1.players.length = 1 := by
  decide

/-- A roster with one healthy and one dead player. -/
def oneDeadList : PlayerList :=
  { players := [Player.init 10 "MASTER" 0,
      { Player.init 11 "PLAYER" 1 with valid := false }],
    sockets := [10, 11], have_master := true, seq_number := 2 }

/-- Witness for `check_twice_single_invalid`. -/
theorem check_twice_single_invalid_witness :
    PlayerList.check (PlayerList.check oneDeadList ⟨"GAME", "0"⟩).1
      (PlayerList.check oneDeadList ⟨"GAME", "0"⟩).2 =
      PlayerList.check oneDeadList ⟨"GAME", "0"⟩ :=
  check_twice_single_invalid oneDeadList ⟨"GAME", "0"⟩ (by decide)

/-- The number of `MASTER` players in a roster. -/
def masterCount (ps : List Player) : Nat :=
  ps.countP (fun p => p.status == "MASTER")

theorem masterCount_eq_of_map_status (ps qs : List Player)
    (h : ps.map Player.status = qs.map Player.status) :
    masterCount ps = masterCount qs := by
  have h1 : ∀ l : List Player, masterCount l =
      (l.map Player.status).countP (fun s => s == "MASTER") := by
    intro l
    rw [List.countP_map]
    rfl
  rw [h1 ps, h1 qs, h]

theorem masterCount_broadcast (ps : List Player) (d : String)
    (i : Option Nat) : masterCount (broadcast ps d i) = masterCount ps :=
  masterCount_eq_of_map_status _ _
    (broadcast_field_eq ps d i Player.status (fun _ _ => rfl))

theorem broadcast_members (ps : List Player) (d : String) (i : Option Nat) :
    ∀ q ∈ broadcast ps d i, ∃ x, x ∈ ps ∧ q.status = x.status ∧
      q.number = x.number := by
  intro q hq
  simp only [broadcast, List.mem_map] at hq
  obtain ⟨x, hx, rfl⟩ := hq
  by_cases h : x.valid ∧ x.getBroadcast
  · rw [if_pos h]
    exact ⟨x, hx, rfl, rfl⟩
  · rw [if_neg h]
    exact ⟨x, hx, rfl, rfl⟩

theorem check_find_some (ps : List Player) (p : Player) (rest : List Player)
    (h : check_find ps = some (p, rest)) :
    ∃ a b, ps = a ++ p :: b ∧ rest = a ++ b := by
  induction ps generalizing rest with
  | nil => cases h
  | cons x xs ih =>
    by_cases hx : x.pverify = true
    · simp only [check_find, hx, if_pos] at h
      cases hcf : check_find xs with
      | none => rw [hcf] at h; cases h
      | some pr =>
        obtain ⟨p2, r2⟩ := pr
        rw [hcf] at h
        have h4 := Option.some.inj h
        have h5 : p2 = p := congrArg Prod.fst h4
        have h6 : x :: r2 = rest := congrArg Prod.snd h4
        subst h5
        obtain ⟨a, b, h1, h2⟩ := ih r2 hcf
        refine ⟨x :: a, b, by rw [h1]; rfl, ?_⟩
        rw [← h6, h2]
        rfl
    · have hx2 : x.pverify = false := by
        cases hv : x.pverify
        · rfl
        · exact absurd hv hx
      simp only [check_find, hx2] at h
      have h4 := Option.some.inj h
      have h5 : x = p := congrArg Prod.fst h4
      have h6 : xs = rest := congrArg Prod.snd h4
      refine ⟨[], xs, by rw [h5]; rfl, ?_⟩
      rw [h6]
      rfl

theorem member_status_number_transfer (ps qs : List Player)
    (hst : qs.map Player.status = ps.map Player.status)
    (hnum : qs.map Player.number = ps.map Player.number)
    (hp : ∀ p ∈ ps, p.status = "MASTER" → p.number = 0) :
    ∀ p ∈ qs, p.status = "MASTER" → p.number = 0 := by
  intro p hp2 hstat
  obtain ⟨i, hi⟩ := List.mem_iff_get?.1 hp2
  have h1 : (qs.map Player.status).get? i = some p.status := by
    rw [List.get?_map, hi]
    rfl
  have h2 : (qs.map Player.number).get? i = some p.number := by
    rw [List.get?_map, hi]
    rfl
  rw [hst, List.get?_map] at h1
  rw [hnum, List.get?_map] at h2
  cases hq : ps.get? i with
  | none =>
    rw [hq] at h1
    cases h1
  | some x =>
    rw [hq] at h1 h2
    have hx1 : x.status = p.status := Option.some.inj h1
    have hx2 : x.number = p.number := Option.some.inj h2
    rw [← hx2]
    exact hp x (List.get?_mem hq) (by rw [hx1, hstat])

/-- Roster states reachable within one session.  A session starts with a
fresh `PlayerList` (`prepare`); the event loop then interleaves
`add_player` (connection admission), the dead-player sweep
(`PlayerList.check`), and the game-logic steps (`handle_message`,
`handle_state`, `global_operations`, `broadcast`, console score edits) —
the last never change the roster membership or order, any player's
`status` or `number`, `have_master`, or `seq_number`, which is what
`game_step` requires. -/
inductive Reach : PlayerList → GameState → Prop where
  | init (gs : GameState) : Reach PlayerList.init gs
  | add (sock : Nat) {pl : PlayerList} {gs : GameState} :
      Reach pl gs → Reach (pl.add_player sock) gs
  | sweep {pl : PlayerList} {gs : GameState} : Reach pl gs →
      Reach (PlayerList.check pl gs).1 (PlayerList.check pl gs).2
  | game_step {pl : PlayerList} {gs : GameState}
      (pl2 : PlayerList) (gs2 : GameState) : Reach pl gs →
      pl2.players.map Player.status = pl.players.map Player.status →
      pl2.players.map Player.number = pl.players.map Player.number →
      pl2.have_master = pl.have_master →
      pl2.seq_number = pl.seq_number →
      Reach pl2 gs2

theorem masterCount_append_single (ps : List Player) (q : Player) :
    masterCount (ps ++ [q]) =
      masterCount ps + (if q.status = "MASTER" then 1 else 0) := by
  simp [masterCount, List.countP_append, List.countP_cons]

theorem reach_inv (pl : PlayerList) (gs : GameState) (h : Reach pl gs) :
    masterCount pl.players ≤ 1 ∧
    (∀ p ∈ pl.players, p.status = "MASTER" → p.number = 0) ∧
    (pl.have_master = false ↔ pl.seq_number = 0) ∧
    (pl.have_master = false → masterCount pl.players = 0) := by
  induction h with
  | init gs =>
    refine ⟨by decide, ?_, by simp [PlayerList.init], by intro h2; rfl⟩
    intro p hp
    cases hp
  | add sock h ih =>
    obtain ⟨ih1, ih2, ih3, ih4⟩ := ih
    rename_i pl1 gs1
    constructor
    · simp only [PlayerList.add_player, masterCount_append_single]
      cases hm : pl1.have_master with
      | true =>
        simp [Player.init]
        omega
      | false =>
        have h0 := ih4 hm
        simp [Player.init]
        omega
    constructor
    · intro p hp hstat
      simp only [PlayerList.add_player, List.mem_append,
        List.mem_singleton] at hp
      rcases hp with hp1 | hp2
      · exact ih2 p hp1 hstat
      · subst hp2
        cases hm : pl1.have_master with
        | true =>
          simp [Player.init] at hstat
          rw [hm] at hstat
          exact Bool.noConfusion hstat
        | false =>
          simp [Player.init]
          exact ih3.1 hm
    constructor
    · simp [PlayerList.add_player]
    · intro hfalse
      simp [PlayerList.add_player] at hfalse
  | sweep h ih =>
    obtain ⟨ih1, ih2, ih3, ih4⟩ := ih
    rename_i pl1 gs1
    cases hcf : check_find pl1.players with
    | none =>
      simp only [PlayerList.check, hcf]
      exact ⟨ih1, ih2, ih3, ih4⟩
    | some pr =>
      obtain ⟨p, rest⟩ := pr
      obtain ⟨a, b, hsp, hrest⟩ := check_find_some pl1.players p rest hcf
      have hcount : masterCount rest ≤ masterCount pl1.players := by
        rw [hsp, hrest]
        simp only [masterCount, List.countP_append, List.countP_cons]
        omega
      have hmem : ∀ q ∈ rest, q ∈ pl1.players := by
        intro q hq
        rw [hsp]
        rw [hrest] at hq
        rcases List.mem_append.1 hq with h1 | h1
        · exact List.mem_append.2 (Or.inl h1)
        · exact List.mem_append.2 (Or.inr (List.mem_cons_of_mem p h1))
      have hrest1 : masterCount rest ≤ 1 := le_trans hcount ih1
      have hrest2 : ∀ q ∈ rest, q.status = "MASTER" → q.number = 0 :=
        fun q hq hs => ih2 q (hmem q hq) hs
      have hrest4 : pl1.have_master = false → masterCount rest = 0 := by
        intro hfalse
        have h0 := ih4 hfalse
        omega
      have hb1 : masterCount (broadcast rest "#PLAYER_LIST" none) ≤ 1 := by
        rw [masterCount_broadcast]
        exact hrest1
      have hb2 : ∀ q ∈ broadcast rest "#PLAYER_LIST" none,
          q.status = "MASTER" → q.number = 0 := by
        intro q hq hs
        obtain ⟨x, hx, hxs, hxn⟩ := broadcast_members rest "#PLAYER_LIST"
          none q hq
        rw [hxn]
        exact hrest2 x hx (by rw [← hxs, hs])
      have hb4 : pl1.have_master = false →
          masterCount (broadcast rest "#PLAYER_LIST" none) = 0 := by
        intro hfalse
        rw [masterCount_broadcast]
        exact hrest4 hfalse
      simp only [PlayerList.check, hcf]
      split
      all_goals try split
      all_goals first
      | exact ⟨hb1, hb2, ih3, hb4⟩
      | exact ⟨hrest1, hrest2, ih3, hrest4⟩
  | game_step pl2 gs2 h hst hnum hhm hseq ih =>
    obtain ⟨ih1, ih2, ih3, ih4⟩ := ih
    have hmc : masterCount pl2.players = masterCount _ :=
      masterCount_eq_of_map_status _ _ hst
    refine ⟨by rw [hmc]; exact ih1, ?_, by rw [hhm, hseq]; exact ih3, ?_⟩
    · exact member_status_number_transfer _ _ hst hnum ih2
    · intro hfalse
      rw [hmc]
      exact ih4 (by rw [← hhm]; exact hfalse)

/-- C7, claim as stated: in every reachable roster state of a session at
most one player holds `MASTER`, a `MASTER` can only be the first player
added (`number = 0`), and every further `add_player` (one with a non-zero
sequence counter) appends a `PLAYER` — also after the master has been
invalidated or removed, since neither changes `have_master`. -/
theorem master_unique (pl : PlayerList) (gs : GameState) (h : Reach pl gs) :
    masterCount pl.players ≤ 1 ∧
    (∀ p ∈ pl.players, p.status = "MASTER" → p.number = 0) ∧
    (∀ sock, (pl.add_player sock).players.get? pl.players.length =
      some (Player.init sock
        (if pl.seq_number = 0 then "MASTER" else "PLAYER")
        pl.seq_number)) := by
  obtain ⟨h1, h2, h3, _⟩ := reach_inv pl gs h
  refine ⟨h1, h2, ?_⟩
  intro sock
  have hget : (pl.add_player sock).players.get? pl.players.length =
      some (Player.init sock
        (if pl.have_master then "PLAYER" else "MASTER") pl.seq_number) := by
    simp only [PlayerList.add_player]
    exact List.get?_concat_length _ _
  rw [hget]
  cases hm : pl.have_master with
  | true =>
    have hseq : ¬ pl.seq_number = 0 := fun h0 => by
      rw [h3.2 h0] at hm
      exact Bool.noConfusion hm
    simp [hm, hseq]
  | false =>
    have hseq : pl.seq_number = 0 := h3.1 hm
    simp [hm, hseq]

/-- Witness for `master_unique`: after two joins the roster holds one
master, and a third join is seated as `PLAYER`. -/
theorem master_unique_witness :
    masterCount ((PlayerList.init.add_player 20).add_player 21).players ≤
      1 ∧
    (((PlayerList.init.add_player 20).add_player 21).add_player 22).players.get?
      ((PlayerList.init.add_player 20).add_player 21).players.length =
      some (Player.init 22 "PLAYER" 2) := by
  have h := master_unique ((PlayerList.init.add_player 20).add_player 21)
    ⟨"PLAYER_CONN", "0"⟩ (Reach.add 21 (Reach.add 20 (Reach.init _)))
  refine ⟨h.1, ?_⟩
  have h3 := h.2.2 22
  simpa using h3
